import Mathlib

/-!
# HRM Analysis Engine — verification of the numeric pipeline and archive parser

Shallow embedding of the HRM melt-curve analysis engine (`src/js/app.js`:
`DataProcessor`, statistical utility functions) and of the vendor archive
parser (`EDSParser.formatForHRMAnalyzer`).

JavaScript numbers are modelled by `JVal`: IEEE-754 special values `NaN`,
`Infinity`, `-Infinity` are explicit constructors and finite values carry an
exact rational.  Rounding and the sign of zero are not modelled: every claim
under verification concerns either exact small-integer data, propagation of
non-finite values, or order/threshold comparisons whose float/rational
discrepancy is zero at the magnitudes an array length can reach, as noted at
the relevant definitions.  Out-of-bounds array reads, which yield `undefined`
in JavaScript and then `NaN` under arithmetic, are modelled by a total read
`getJ` defaulting to `JVal.nan`.
-/

/-- A JavaScript number: `NaN`, `Infinity`, `-Infinity`, or a finite value
(modelled exactly as a rational; rounding and `-0` are not modelled). -/
inductive JVal where
  | nan : JVal
  | inf : JVal
  | ninf : JVal
  | fin : ℚ → JVal
deriving DecidableEq, Repr

/-- The `isNaN(x)` test used by the extraction code. -/
def JVal.isNaN : JVal → Bool
  | .nan => true
  | _ => false

/-- JavaScript unary negation on numbers. -/
def jneg : JVal → JVal
  | .nan => .nan
  | .inf => .ninf
  | .ninf => .inf
  | .fin q => .fin (-q)

/-- JavaScript `+` on numbers (IEEE-754 addition without rounding). -/
def jadd : JVal → JVal → JVal
  | .nan, _ => .nan
  | _, .nan => .nan
  | .inf, .ninf => .nan
  | .ninf, .inf => .nan
  | .inf, _ => .inf
  | _, .inf => .inf
  | .ninf, _ => .ninf
  | _, .ninf => .ninf
  | .fin a, .fin b => .fin (a + b)

/-- JavaScript `-` on numbers, as addition of the negation (exact for the
sign-of-zero-free model). -/
def jsub (a b : JVal) : JVal := jadd a (jneg b)

/-- JavaScript `/` on numbers (IEEE-754 division; the divisor zero is treated
as `+0` since `-0` is not modelled). -/
def jdiv : JVal → JVal → JVal
  | .nan, _ => .nan
  | _, .nan => .nan
  | .inf, .inf => .nan
  | .inf, .ninf => .nan
  | .ninf, .inf => .nan
  | .ninf, .ninf => .nan
  | .inf, .fin b => if b < 0 then .ninf else .inf
  | .ninf, .fin b => if b < 0 then .inf else .ninf
  | .fin _, .inf => .fin 0
  | .fin _, .ninf => .fin 0
  | .fin a, .fin b =>
      if b = 0 then (if a = 0 then .nan else if 0 < a then .inf else .ninf)
      else .fin (a / b)

/-- JavaScript `Math.abs`. -/
def jabs : JVal → JVal
  | .nan => .nan
  | .inf => .inf
  | .ninf => .inf
  | .fin a => .fin |a|

/-- JavaScript `a > b` on numbers: any comparison involving `NaN` is false. -/
def jgt : JVal → JVal → Bool
  | .nan, _ => false
  | _, .nan => false
  | .inf, .inf => false
  | .inf, _ => true
  | .ninf, _ => false
  | .fin _, .inf => false
  | .fin _, .ninf => true
  | .fin a, .fin b => decide (b < a)

/-- JavaScript truthiness test on a number: `0` and `NaN` are falsy. -/
def jfalsy : JVal → Bool
  | .nan => true
  | .fin q => decide (q = 0)
  | _ => false

/-- The JavaScript expression `v || 0`, for a number `v`. -/
def jorZero (v : JVal) : JVal := if jfalsy v then .fin 0 else v

/-- Array indexing `l[i]` in JavaScript followed by arithmetic use: an out-of-bounds read is
`undefined`, which behaves as `NaN` once used as a number. -/
def getJ (l : List JVal) (i : Nat) : JVal := (l.get? i).getD .nan

/-- The method `Array.prototype.slice(start, stop)` on an index range of natural
numbers (JavaScript clamps exactly as `drop`/`take` do for `start ≤ stop`). -/
def jslice (l : List JVal) (start stop : Nat) : List JVal :=
  (l.drop start).take (stop - start)

/-- The function `mean` (src/js/app.js): `arr.reduce((sum, val) => sum + val, 0) / arr.length`.
For the empty list this is `0 / 0 = NaN`, exactly as in JavaScript. -/
def jmean (l : List JVal) : JVal :=
  jdiv (l.foldl jadd (.fin 0)) (.fin l.length)

/-- A variant of `List.mapIdx` with an explicit starting index, used to model JavaScript
loops and `map((v, i) => ...)` callbacks structurally. -/
def mapIdxJ {α β : Type} (f : Nat → α → β) : List α → Nat → List β
  | [], _ => []
  | a :: as, i => f i a :: mapIdxJ f as (i + 1)

/-- Index-aware map starting at 0 (JavaScript `map((v, i) => ...)`). -/
def mapIdx0 {α β : Type} (f : Nat → α → β) (l : List α) : List β := mapIdxJ f l 0

/-- The function `movingAverage` (src/js/app.js): for each index the mean of the slice
`[max(0, i - half), min(length, i + half + 1))`, `half = floor(window / 2)`.
Natural subtraction `i - half` truncates at zero exactly like `Math.max(0, ...)`. -/
def movingAverage (arr : List JVal) (windowSize : Nat) : List JVal :=
  let halfWindow := windowSize / 2
  (List.range arr.length).map fun i =>
    jmean (jslice arr (i - halfWindow) (min arr.length (i + halfWindow + 1)))

/-- The function `calculateDerivative` (src/js/app.js): forward difference at the first
point, backward at the last, central elsewhere. -/
def calculateDerivative (xValues yValues : List JVal) : List JVal :=
  (List.range xValues.length).map fun i =>
    if i = 0 then
      jdiv (jsub (getJ yValues 1) (getJ yValues 0))
        (jsub (getJ xValues 1) (getJ xValues 0))
    else if i = xValues.length - 1 then
      jdiv (jsub (getJ yValues i) (getJ yValues (i - 1)))
        (jsub (getJ xValues i) (getJ xValues (i - 1)))
    else
      jdiv (jsub (getJ yValues (i + 1)) (getJ yValues (i - 1)))
        (jsub (getJ xValues (i + 1)) (getJ xValues (i - 1)))

/-- The per-point normalization map of `normalizeArray` (src/js/app.js):
`(val - postMeltAvg) / (preMeltAvg - postMeltAvg)`. -/
def normalizePoint (preMeltAvg postMeltAvg v : JVal) : JVal :=
  jdiv (jsub v postMeltAvg) (jsub preMeltAvg postMeltAvg)

/-- The function `normalizeArray` (src/js/app.js): averages over the pre-melt and
post-melt slices, then the affine map applied pointwise. -/
def normalizeArray (arr : List JVal) (preStart preEnd postStart postEnd : Nat) :
    List JVal :=
  let preMeltAvg := jmean (jslice arr preStart preEnd)
  let postMeltAvg := jmean (jslice arr postStart postEnd)
  arr.map (normalizePoint preMeltAvg postMeltAvg)

/-- The region record returned by `detectMeltRegions`. -/
structure Regions where
  preStart : Nat
  preEnd : Nat
  postStart : Nat
  postEnd : Nat
deriving DecidableEq, Repr

/-- The function `detectMeltRegions` (src/js/app.js): `Math.floor(length * 0.1)` and
`Math.floor(length * 0.9)`.  The float products `length * 0.1` and
`length * 0.9` floor to the same integers as the exact rational products for
every possible array length (both float literals round upward, so a product
at an integer multiple never rounds below it, and otherwise the fractional
part of the exact product is at least `1/10`, far above the rounding error),
so the floats are modelled by exact rationals.  The `fluorescence` argument
is received and ignored, exactly as in the source. -/
def detectMeltRegions (temperatures fluorescence : List JVal) : Regions :=
  { preStart := 0
    preEnd := (Rat.floor ((temperatures.length : ℚ) * (1 / 10))).toNat
    postStart := (Rat.floor ((temperatures.length : ℚ) * (9 / 10))).toNat
    postEnd := temperatures.length }

/-- The scan loop of `findTm` (src/js/app.js): walks the remaining values
carrying the current champion value and index, replacing them only when the
absolute value of the element strictly exceeds the champion's. -/
def scanMax : List JVal → JVal → Nat → Nat → JVal × Nat
  | [], cur, _, best => (cur, best)
  | d :: ds, cur, i, best =>
    if jgt (jabs d) (jabs cur) then scanMax ds d (i + 1) i
    else scanMax ds cur (i + 1) best

/-- The function `findTm` (src/js/app.js): champion starts at `derivative[0]`, the loop
runs from index 1, and the temperature at the final champion index is
returned. -/
def findTm (temperatures derivative : List JVal) : JVal :=
  getJ temperatures (scanMax (derivative.drop 1) (getJ derivative 0) 1 0).2

/-- A sample as produced by `DataProcessor.extractSamples`: name, cleaned
fluorescence vector, visibility flag. -/
structure SampleIn where
  name : String
  fluorescence : List JVal
  visible : Bool
deriving DecidableEq, Repr

/-- A sample after `DataProcessor.analyze`: the extraction fields plus the
fields added by the normalization, derivative and difference stages
(`difference` stays `none` when the difference stage passes through). -/
structure AnalyzedSample where
  name : String
  fluorescence : List JVal
  visible : Bool
  normalized : List JVal
  derivative : List JVal
  tm : JVal
  difference : Option (List JVal)
deriving DecidableEq, Repr

/-- The analysis settings consumed by `DataProcessor.analyze`.
`referenceSample` models the source's nullable string after `parseInt`: the
`null` case is `none`, and a non-numeric string (whose `parseInt` is `NaN`)
behaves identically to any out-of-range integer, so it is absorbed by the
range guard of the difference stage. -/
structure Settings where
  smoothingWindow : Nat
  referenceSample : Option Int
deriving DecidableEq, Repr

/-- Step 4 of `DataProcessor.analyze` (src/js/app.js): the difference stage.
If the reference index is present and in range, the reference sample receives
an all-zero difference of the reference's normalized length and every other
sample receives the pointwise subtraction `normalized[i] - reference[i]`
(out-of-range reads of the reference yielding `NaN`); otherwise the sample
list passes through untouched. -/
def differenceStage (samples : List AnalyzedSample) (referenceSample : Option Int) :
    List AnalyzedSample :=
  match referenceSample with
  | none => samples
  | some refIdx =>
    if 0 ≤ refIdx ∧ refIdx < (samples.length : Int) then
      let reference := ((samples.get? refIdx.toNat).map (·.normalized)).getD []
      mapIdx0
        (fun idx s =>
          if idx = refIdx.toNat then
            { s with difference := some (List.replicate reference.length (.fin 0)) }
          else
            let diff := mapIdx0 (fun i v => jsub v (getJ reference i)) s.normalized
            { s with difference := some diff })
        samples
    else samples

/-- The per-sample body of steps 2–3 of `DataProcessor.analyze`
(src/js/app.js): normalize against the detected regions, smooth the
normalized curve, differentiate against the temperature axis, negate, and
locate the Tm on the negated derivative. -/
def derivativeStage (temperatures : List JVal) (settings : Settings)
    (regions : Regions) (s : SampleIn) : AnalyzedSample :=
  let normalized := normalizeArray s.fluorescence
    regions.preStart regions.preEnd regions.postStart regions.postEnd
  let smoothed := movingAverage normalized settings.smoothingWindow
  let deriv := calculateDerivative temperatures smoothed
  let negDeriv := deriv.map jneg
  { name := s.name
    fluorescence := s.fluorescence
    visible := s.visible
    normalized := normalized
    derivative := negDeriv
    tm := findTm temperatures negDeriv
    difference := none }

/-- Steps 1–4 of `DataProcessor.analyze` (src/js/app.js): detect regions from
the temperature axis (the first sample's fluorescence is passed and ignored,
as in the source), run the normalization/derivative work per sample, then
the difference stage. -/
def analyze (temperatures : List JVal) (samples : List SampleIn)
    (settings : Settings) : Regions × List AnalyzedSample :=
  let regions := detectMeltRegions temperatures
    ((samples.head?.map (·.fluorescence)).getD [])
  (regions,
    differenceStage (samples.map (derivativeStage temperatures settings regions))
      settings.referenceSample)

/-- The aggregator state mutated by the visibility toggles
(`DataProcessor.processedData` after an analysis run). -/
structure ProcessedData where
  temperatures : List JVal
  samples : List AnalyzedSample
  regions : Regions
deriving DecidableEq, Repr

/-- The method `DataProcessor.toggleSampleVisibility` (src/js/app.js): flips the
`visible` flag of the indexed sample in place; an out-of-range index leaves
the state untouched (the source guards on `samples[sampleIndex]` being
truthy, which for an array of objects is exactly the bounds check). -/
def toggleSampleVisibility (pd : ProcessedData) (sampleIndex : Nat) :
    ProcessedData :=
  if sampleIndex < pd.samples.length then
    let toggled :=
      mapIdx0 (fun j s => if j = sampleIndex then { s with visible := !s.visible } else s)
        pd.samples
    { pd with samples := toggled }
  else pd

/-- The method `DataProcessor.setAllSamplesVisibility` (src/js/app.js). -/
def setAllSamplesVisibility (pd : ProcessedData) (visible : Bool) :
    ProcessedData :=
  { pd with samples := pd.samples.map fun s => { s with visible := visible } }

/-- The fields of an `AnalyzedSample` other than `visible`, used to state
that the visibility operations do not touch numeric data. -/
def numericPart (s : AnalyzedSample) :
    String × List JVal × List JVal × List JVal × JVal × Option (List JVal) :=
  (s.name, s.fluorescence, s.normalized, s.derivative, s.tm, s.difference)

/-- The tabular reading consumed by `DataProcessor.extractSamples`: a header
list, the temperature header, and rows of named cells.  A cell already holds
the result of `parseFloat` on the raw field (a `JVal`, `NaN` when the raw
text does not parse); a field absent from a row reads as `undefined`, hence
`NaN`, via `rowGet`. -/
structure RawData where
  headers : List String
  tempHeader : String
  data : List (List (String × JVal))
deriving DecidableEq, Repr

/-- Reading `row[header]` followed by `parseFloat`: an absent field is `undefined`
and parses to `NaN`. -/
def rowGet (row : List (String × JVal)) (key : String) : JVal :=
  (row.lookup key).getD .nan

/-- Step 1 of `DataProcessor.extractSamples`: keep the rows whose temperature
field parses to a non-`NaN` number. -/
def validRowsOf (d : RawData) : List (List (String × JVal)) :=
  d.data.filter fun row => !(rowGet row d.tempHeader).isNaN

/-- Step 2 of `DataProcessor.extractSamples`: the temperature vector of the
valid rows. -/
def temperaturesOf (d : RawData) : List JVal :=
  (validRowsOf d).map fun row => rowGet row d.tempHeader

/-- The fluorescence column of one header over the valid rows, with `NaN`
cells turned into the explicit missing marker `null` (`none`). -/
def columnOf (d : RawData) (header : String) : List (Option JVal) :=
  (validRowsOf d).map fun row =>
    let val := rowGet row header
    if val.isNaN then none else some val

/-- The number of non-missing cells of a column, as counted by the coverage
check of `DataProcessor.extractSamples`. -/
def validCountOf (d : RawData) (header : String) : Nat :=
  ((columnOf d header).filter (·.isSome)).length

/-- The forward-fill pass of `DataProcessor.fillMissingValues`: missing cells
take the last carried value. -/
def forwardFillAux : List (Option JVal) → JVal → List JVal
  | [], _ => []
  | none :: rest, lastVal => lastVal :: forwardFillAux rest lastVal
  | some v :: rest, _ => v :: forwardFillAux rest v

/-- The method `DataProcessor.fillMissingValues` (src/js/app.js).  The carried value is
seeded with `arr.find(v => v !== null) || 0` — the first non-missing value,
with JavaScript falsiness collapsing `0` (and a hypothetical `NaN`) to `0` —
so the forward pass already fills the leading missing cells with the first
non-missing value and leaves no missing cell at all; the source's subsequent
backward pass maps every cell to itself and is the identity, so it is not
repeated here. -/
def fillMissingValues (arr : List (Option JVal)) : List JVal :=
  let lastVal := jorZero ((arr.findSome? fun v => v).getD .nan)
  forwardFillAux arr lastVal

/-- Step 3 of `DataProcessor.extractSamples` (src/js/app.js): every
non-temperature header yields a sample exactly when the fraction of
non-missing cells over the valid-row count strictly exceeds `0.5`; accepted
columns are repaired by `fillMissingValues`, others are dropped with a
console warning. -/
def extractedSamples (d : RawData) : List SampleIn :=
  d.headers.filterMap fun header =>
    if header = d.tempHeader then none
    else
      let fluorescence := columnOf d header
      let validCount := (fluorescence.filter (·.isSome)).length
      let coverage : ℚ := (validCount : ℚ) / ((temperaturesOf d).length : ℚ)
      if 1 / 2 < coverage then
        some { name := header
               fluorescence := fillMissingValues fluorescence
               visible := true }
      else none

/-- The method `DataProcessor.extractSamples` end to end: `none` models the early
error returns (`No valid temperature data` when no row survives the
temperature filter, `No valid samples` when every column is dropped). -/
def extractSamples (d : RawData) : Option (List JVal × List SampleIn) :=
  if (validRowsOf d).isEmpty then none
  else
    let samples := extractedSamples d
    if samples.isEmpty then none
    else some (temperaturesOf d, samples)

/-- A sample record parsed out of the vendor melt-curve stream by
`EDSParser.parseMeltCurveResult` (src/unnamed/part_000), restricted to the
fields `formatForHRMAnalyzer` reads. -/
structure ParsedSample where
  wellNumber : Nat
  sampleName : String
  temperatures : List JVal
  rnValues : List JVal
deriving DecidableEq, Repr

/-- The base name chosen for a parsed sample in
`EDSParser.formatForHRMAnalyzer`: an empty (falsy) parsed name is replaced by
`Well_<wellNumber + 1>`. -/
def baseName (s : ParsedSample) : String :=
  if s.sampleName = "" then "Well_" ++ toString (s.wellNumber + 1) else s.sampleName

/-- The header-building loop of `EDSParser.formatForHRMAnalyzer`: `used` is
the set of names already assigned (the source's `usedNames`), `idx` the
position of the next sample; a base name already used is suffixed with the
1-based position. -/
def headerNamesAux : List ParsedSample → Nat → List String → List String
  | [], _, _ => []
  | s :: ss, idx, used =>
    let name :=
      if baseName s ∈ used then baseName s ++ "_" ++ toString (idx + 1)
      else baseName s
    name :: headerNamesAux ss (idx + 1) (name :: used)

/-- The disambiguated sample names of `EDSParser.formatForHRMAnalyzer`
(everything after the fixed `Temperature` header). -/
def headerNames (samples : List ParsedSample) : List String :=
  headerNamesAux samples 0 []

/-- Property assignment `row[key] = value` on a JavaScript object modelled
as an ordered key-value list: an existing key is updated in place, a new key
is appended. -/
def objSet (row : List (String × Option JVal)) (key : String) (value : Option JVal) :
    List (String × Option JVal) :=
  if row.any (fun p => p.1 = key) then
    row.map fun p => if p.1 = key then (key, value) else p
  else row ++ [(key, value)]

/-- Total read of a header list (`headers[i]`); out of range never occurs at
the call sites but JavaScript would yield `undefined`, modelled by `""`. -/
def getStr (l : List String) (i : Nat) : String := (l.get? i).getD ""

/-- The row-building loop of `EDSParser.formatForHRMAnalyzer`: for each
sample in order, assign under its header name the Rn value at row index `i`
when defined, `null` otherwise. -/
def buildRowAux (headers : List String) (i : Nat) :
    List ParsedSample → Nat → List (String × Option JVal) →
      List (String × Option JVal)
  | [], _, row => row
  | s :: ss, idx, row =>
    buildRowAux headers i ss (idx + 1)
      (objSet row (getStr headers (idx + 1)) (s.rnValues.get? i))

/-- One output row of `EDSParser.formatForHRMAnalyzer`: starts as
`{ Temperature: refTemps[i] }`, then one assignment per sample. -/
def buildRow (headers : List String) (samples : List ParsedSample)
    (t : JVal) (i : Nat) : List (String × Option JVal) :=
  buildRowAux headers i samples 0 [("Temperature", some t)]

/-- The tabular structure emitted by `EDSParser.formatForHRMAnalyzer`. -/
structure FormattedData where
  headers : List String
  tempHeader : String
  data : List (List (String × Option JVal))
deriving DecidableEq, Repr

/-- The method `EDSParser.formatForHRMAnalyzer` (src/unnamed/part_000): the first
sample's temperatures are the canonical axis, the headers are `Temperature`
followed by the disambiguated names, and one row is built per canonical
temperature point.  `none` models the crash on an empty sample list, which
`parseMeltCurveResult` rules out before calling. -/
def formatForHRMAnalyzer (samples : List ParsedSample) : Option FormattedData :=
  match samples with
  | [] => none
  | s0 :: _ =>
    let refTemps := s0.temperatures
    let headers := "Temperature" :: headerNames samples
    some { headers := headers
           tempHeader := "Temperature"
           data := mapIdx0 (fun i t => buildRow headers samples t i) refTemps }

/-- The normalized curve stored at index `i` of an analyzed sample list
(empty when out of range), used to state the difference-stage contract. -/
def sampleNormAt (samples : List AnalyzedSample) (i : Nat) : List JVal :=
  ((samples.get? i).map (·.normalized)).getD []

/-- Concrete four-row reading used to witness the coverage gate: column `A`
has exactly 50% valid cells, column `B` has 75%. -/
def rawEx : RawData :=
  { headers := ["T", "A", "B"]
    tempHeader := "T"
    data :=
      [[("T", .fin 60), ("A", .fin 1), ("B", .fin 1)],
       [("T", .fin 61), ("A", .nan), ("B", .fin 2)],
       [("T", .fin 62), ("A", .fin 3), ("B", .fin 3)],
       [("T", .fin 63), ("A", .nan), ("B", .nan)]] }

/-- Three parsed samples whose names defeat the one-pass disambiguation:
the third sample's suffixed name `A_3` collides with the first sample's
original name. -/
def parsedDupEx : List ParsedSample :=
  [{ wellNumber := 0, sampleName := "A_3"
     temperatures := [.fin 60, .fin 61], rnValues := [.fin 1, .fin 2] },
   { wellNumber := 1, sampleName := "A"
     temperatures := [.fin 60, .fin 61], rnValues := [.fin 3, .fin 4] },
   { wellNumber := 2, sampleName := "A"
     temperatures := [.fin 60, .fin 61], rnValues := [.fin 5, .fin 7] }]

/-- Like `parsedDupEx` but the first sample's Rn vector is shorter than its
temperature vector, so its second row cell should be the missing marker. -/
def parsedShortEx : List ParsedSample :=
  [{ wellNumber := 0, sampleName := "A_3"
     temperatures := [.fin 60, .fin 61], rnValues := [.fin 1] },
   { wellNumber := 1, sampleName := "A"
     temperatures := [.fin 60, .fin 61], rnValues := [.fin 3, .fin 4] },
   { wellNumber := 2, sampleName := "A"
     temperatures := [.fin 60, .fin 61], rnValues := [.fin 5, .fin 7] }]

/-- First of two parsed samples with distinct names. -/
def pOk0 : ParsedSample :=
  { wellNumber := 0, sampleName := "P"
    temperatures := [.fin 60, .fin 61, .fin 62]
    rnValues := [.fin 1, .fin 2, .fin 3] }

/-- Second parsed sample, whose Rn vector is shorter than the canonical
axis. -/
def pOk1 : ParsedSample :=
  { wellNumber := 1, sampleName := "Q"
    temperatures := [.fin 60, .fin 61, .fin 62]
    rnValues := [.fin 5, .fin 6] }

/-- Two parsed samples with distinct names; the second one's Rn vector is
shorter than the canonical axis. -/
def parsedOkEx : List ParsedSample := [pOk0, pOk1]

/-- The table `formatForHRMAnalyzer` produces on `parsedOkEx`: the short
second sample yields the missing marker in the last row. -/
def fdOkEx : FormattedData :=
  { headers := ["Temperature", "P", "Q"]
    tempHeader := "Temperature"
    data :=
      [[("Temperature", some (.fin 60)), ("P", some (.fin 1)), ("Q", some (.fin 5))],
       [("Temperature", some (.fin 61)), ("P", some (.fin 2)), ("Q", some (.fin 6))],
       [("Temperature", some (.fin 62)), ("P", some (.fin 3)), ("Q", none)]] }

/-- Concrete two-point temperature axis for the difference-stage witness. -/
def tempsC6 : List JVal := [.fin 60, .fin 61]

/-- Concrete two-sample input for the difference-stage witness. -/
def samplesC6 : List SampleIn :=
  [{ name := "X", fluorescence := [.fin 1, .fin 2], visible := true },
   { name := "Y", fluorescence := [.fin 3, .fin 5], visible := true }]

/-- Settings selecting sample 0 as the reference, no smoothing. -/
def settingsC6 : Settings := { smoothingWindow := 1, referenceSample := some 0 }

attribute [local semireducible] Rat.mul Rat.add Rat.inv Rat.sub

theorem mapIdxJ_length {α β : Type} (f : Nat → α → β) (l : List α) (i : Nat) :
    (mapIdxJ f l i).length = l.length := by
  induction l generalizing i with
  | nil => rfl
  | cons a as ih => simp [mapIdxJ, ih]

theorem mapIdxJ_get? {α β : Type} (f : Nat → α → β) (l : List α) (i j : Nat) :
    (mapIdxJ f l i).get? j = (l.get? j).map (f (i + j)) := by
  induction l generalizing i j with
  | nil => simp [mapIdxJ]
  | cons a as ih =>
    cases j with
    | zero => simp [mapIdxJ]
    | succ j =>
      simp only [mapIdxJ, List.get?_cons_succ, ih]
      have : i + 1 + j = i + (j + 1) := by omega
      rw [this]

theorem mapIdx0_length {α β : Type} (f : Nat → α → β) (l : List α) :
    (mapIdx0 f l).length = l.length := mapIdxJ_length f l 0

theorem mapIdx0_get? {α β : Type} (f : Nat → α → β) (l : List α) (j : Nat) :
    (mapIdx0 f l).get? j = (l.get? j).map (f j) := by
  simpa using mapIdxJ_get? f l 0 j

theorem mapIdxJ_map_invariant {α β : Type} (f : Nat → α → α) (g : α → β)
    (l : List α) (i : Nat) (h : ∀ k a, g (f k a) = g a) :
    (mapIdxJ f l i).map g = l.map g := by
  induction l generalizing i with
  | nil => rfl
  | cons a as ih => simp [mapIdxJ, h, ih]

theorem mapIdx0_map_invariant {α β : Type} (f : Nat → α → α) (g : α → β)
    (l : List α) (h : ∀ k a, g (f k a) = g a) :
    (mapIdx0 f l).map g = l.map g := mapIdxJ_map_invariant f g l 0 h

theorem detectMeltRegions_eq (temperatures fluorescence : List JVal) :
    detectMeltRegions temperatures fluorescence =
      { preStart := 0
        preEnd := temperatures.length / 10
        postStart := 9 * temperatures.length / 10
        postEnd := temperatures.length } := by
  unfold detectMeltRegions
  have hfl : ∀ q : ℚ, Rat.floor q = ⌊q⌋ := fun q => by
    rw [Rat.floor_def' q, Rat.floor_def]
  have h1 : ((temperatures.length : ℚ) * (1 / 10)) =
      ((temperatures.length : ℕ) : ℚ) / ((10 : ℕ) : ℚ) := by push_cast; ring
  have h9 : ((temperatures.length : ℚ) * (9 / 10)) =
      ((9 * temperatures.length : ℕ) : ℚ) / ((10 : ℕ) : ℚ) := by push_cast; ring
  rw [hfl, hfl, h1, h9, Int.floor_toNat, Int.floor_toNat,
    Nat.floor_div_eq_div, Nat.floor_div_eq_div]

/-- Claim C7: for every temperature axis of length `N`, automatic region
detection returns exactly `preStart = 0`, `preEnd = ⌊0.1 * N⌋`,
`postStart = ⌊0.9 * N⌋`, `postEnd = N` (the floors written as natural
division by 10), and these indices satisfy
`0 ≤ preStart ≤ preEnd ≤ postStart ≤ postEnd ≤ N`. -/
theorem detectMeltRegions_spec (temperatures fluorescence : List JVal) :
    detectMeltRegions temperatures fluorescence =
      { preStart := 0
        preEnd := temperatures.length / 10
        postStart := 9 * temperatures.length / 10
        postEnd := temperatures.length } ∧
    ((detectMeltRegions temperatures fluorescence).preStart ≤
        (detectMeltRegions temperatures fluorescence).preEnd ∧
      (detectMeltRegions temperatures fluorescence).preEnd ≤
        (detectMeltRegions temperatures fluorescence).postStart ∧
      (detectMeltRegions temperatures fluorescence).postStart ≤
        (detectMeltRegions temperatures fluorescence).postEnd ∧
      (detectMeltRegions temperatures fluorescence).postEnd ≤
        temperatures.length) := by
  have h := detectMeltRegions_eq temperatures fluorescence
  refine ⟨h, ?_⟩
  rw [h]
  dsimp only
  omega

/-- Claim C9: automatic melt-region detection depends only on the length of
the temperature axis — any two fluorescence vectors and any two temperature
vectors of equal length produce identical regions. -/
theorem detectMeltRegions_length_only (t1 f1 t2 f2 : List JVal)
    (h : t1.length = t2.length) :
    detectMeltRegions t1 f1 = detectMeltRegions t2 f2 := by
  rw [detectMeltRegions_eq, detectMeltRegions_eq, h]

/-- Witness for claim C9 at concrete inputs of equal length but different
values. -/
theorem detectMeltRegions_length_only_witness :
    detectMeltRegions [JVal.fin 1, JVal.fin 2] [JVal.fin 3] =
      detectMeltRegions [JVal.fin 7, JVal.inf] [] :=
  detectMeltRegions_length_only [JVal.fin 1, JVal.fin 2] [JVal.fin 3]
    [JVal.fin 7, JVal.inf] [] (by decide)

/-- Claim C4: on temperatures `[60.0, 60.5, 61.0, 61.5, 62.0]` with the one
sample `[100, 100, 80, 20, 20]`, auto detection yields the degenerate
regions `(0, 0, 4, 5)` (empty pre-melt window, whose mean is `NaN`), and the
pipeline completes: every normalized value is the non-finite `NaN`, which
propagates unfiltered through smoothing, differentiation and Tm detection
(the whole derivative curve is `NaN`, never coerced to zero), and Tm
detection returns the temperature at index 0. -/
theorem degenerate_pipeline_propagates :
    jmean (jslice [JVal.fin 100, JVal.fin 100, JVal.fin 80, JVal.fin 20, JVal.fin 20] 0 0) =
      JVal.nan ∧
    analyze [JVal.fin 60, JVal.fin (121 / 2), JVal.fin 61, JVal.fin (123 / 2), JVal.fin 62]
        [{ name := "S1"
           fluorescence := [JVal.fin 100, JVal.fin 100, JVal.fin 80, JVal.fin 20, JVal.fin 20]
           visible := true }]
        { smoothingWindow := 5, referenceSample := none } =
      ({ preStart := 0, preEnd := 0, postStart := 4, postEnd := 5 },
       [{ name := "S1"
          fluorescence := [JVal.fin 100, JVal.fin 100, JVal.fin 80, JVal.fin 20, JVal.fin 20]
          visible := true
          normalized := List.replicate 5 JVal.nan
          derivative := List.replicate 5 JVal.nan
          tm := JVal.fin 60
          difference := none }]) := by
  constructor
  · rfl
  · decide

theorem jsub_fin (a b : ℚ) : jsub (.fin a) (.fin b) = .fin (a - b) := by
  simp [jsub, jadd, jneg, sub_eq_add_neg]

theorem jdiv_fin (a b : ℚ) (hb : b ≠ 0) :
    jdiv (.fin a) (.fin b) = .fin (a / b) := by
  simp [jdiv, hb]

theorem normalizePoint_fin (p q x : ℚ) (h : p ≠ q) :
    normalizePoint (.fin p) (.fin q) (.fin x) = .fin ((x - q) / (p - q)) := by
  rw [normalizePoint, jsub_fin, jsub_fin, jdiv_fin _ _ (sub_ne_zero.2 h)]

/-- Claim C3: when the pre-melt average `p` differs from the post-melt
average `q`, the normalization applied by `normalizeArray` is affine and
invertible: `normalizeArray` is exactly the pointwise map
`x ↦ (x - q) / (p - q)` whenever its window means evaluate to `p` and `q`,
that map sends a constant curve at `q` to all zeros and a constant curve at
`p` to all ones, and on finite values it is an affine map with nonzero slope
that is bijective. -/
theorem normalization_affine_invertible (p q : ℚ) (hpq : p ≠ q) :
    (∀ arr preStart preEnd postStart postEnd,
        jmean (jslice arr preStart preEnd) = JVal.fin p →
        jmean (jslice arr postStart postEnd) = JVal.fin q →
        normalizeArray arr preStart preEnd postStart postEnd =
          arr.map (normalizePoint (JVal.fin p) (JVal.fin q))) ∧
    (∀ n : Nat,
        (List.replicate n (JVal.fin q)).map (normalizePoint (JVal.fin p) (JVal.fin q)) =
          List.replicate n (JVal.fin 0)) ∧
    (∀ n : Nat,
        (List.replicate n (JVal.fin p)).map (normalizePoint (JVal.fin p) (JVal.fin q)) =
          List.replicate n (JVal.fin 1)) ∧
    ∃ a b : ℚ, a ≠ 0 ∧
      (∀ x : ℚ,
        normalizePoint (JVal.fin p) (JVal.fin q) (JVal.fin x) = JVal.fin (a * x + b)) ∧
      Function.Bijective fun x : ℚ => a * x + b := by
  refine ⟨?_, ?_, ?_, ?_⟩
  · intro arr preStart preEnd postStart postEnd hpre hpost
    unfold normalizeArray
    rw [hpre, hpost]
  · intro n
    rw [List.map_replicate, normalizePoint_fin p q q hpq, sub_self, zero_div]
  · intro n
    rw [List.map_replicate, normalizePoint_fin p q p hpq,
      div_self (sub_ne_zero.2 hpq)]
  · refine ⟨(p - q)⁻¹, -q / (p - q), inv_ne_zero (sub_ne_zero.2 hpq), ?_, ?_⟩
    · intro x
      rw [normalizePoint_fin p q x hpq]
      congr 1
      field_simp
      ring
    · have hs : p - q ≠ 0 := sub_ne_zero.2 hpq
      refine Function.bijective_iff_has_inverse.2
        ⟨fun y => (y - -q / (p - q)) / (p - q)⁻¹, fun x => ?_, fun y => ?_⟩
      · field_simp [hs]
      · field_simp [hs]

/-- Witness for claim C3 at the concrete averages `p = 1`, `q = 0`. -/
theorem normalization_affine_invertible_witness :
    (∀ arr preStart preEnd postStart postEnd,
        jmean (jslice arr preStart preEnd) = JVal.fin 1 →
        jmean (jslice arr postStart postEnd) = JVal.fin 0 →
        normalizeArray arr preStart preEnd postStart postEnd =
          arr.map (normalizePoint (JVal.fin 1) (JVal.fin 0))) ∧
    (∀ n : Nat,
        (List.replicate n (JVal.fin 0)).map (normalizePoint (JVal.fin 1) (JVal.fin 0)) =
          List.replicate n (JVal.fin 0)) ∧
    (∀ n : Nat,
        (List.replicate n (JVal.fin 1)).map (normalizePoint (JVal.fin 1) (JVal.fin 0)) =
          List.replicate n (JVal.fin 1)) ∧
    ∃ a b : ℚ, a ≠ 0 ∧
      (∀ x : ℚ,
        normalizePoint (JVal.fin 1) (JVal.fin 0) (JVal.fin x) = JVal.fin (a * x + b)) ∧
      Function.Bijective fun x : ℚ => a * x + b :=
  normalization_affine_invertible 1 0 (by norm_num)

theorem differenceStage_map_visible (l : List AnalyzedSample) (ref : Option Int) :
    (differenceStage l ref).map (·.visible) = l.map (·.visible) := by
  unfold differenceStage
  cases ref with
  | none => rfl
  | some r =>
    dsimp only
    split
    · exact mapIdx0_map_invariant _ _ _ (by intro k a; split <;> rfl)
    · rfl

/-- Claim C8: toggling one sample's visibility or setting all samples'
visibility changes only the `visible` flags — the temperature axis, the
regions, and every sample's name, fluorescence, normalized, derivative, tm
and difference fields are unchanged and nothing is recomputed — and
conversely the analysis pipeline never changes any sample's `visible`
flag. -/
theorem visibility_frame_spec :
    (∀ (pd : ProcessedData) (i : Nat),
        (toggleSampleVisibility pd i).temperatures = pd.temperatures ∧
        (toggleSampleVisibility pd i).regions = pd.regions ∧
        (toggleSampleVisibility pd i).samples.map numericPart =
          pd.samples.map numericPart ∧
        ∀ j : Nat,
          ((toggleSampleVisibility pd i).samples.get? j).map (·.visible) =
            (pd.samples.get? j).map
              (fun s => if j = i then !s.visible else s.visible)) ∧
    (∀ (pd : ProcessedData) (v : Bool),
        (setAllSamplesVisibility pd v).temperatures = pd.temperatures ∧
        (setAllSamplesVisibility pd v).regions = pd.regions ∧
        (setAllSamplesVisibility pd v).samples.map numericPart =
          pd.samples.map numericPart ∧
        ∀ j : Nat,
          ((setAllSamplesVisibility pd v).samples.get? j).map (·.visible) =
            (pd.samples.get? j).map (fun _ => v)) ∧
    (∀ (temperatures : List JVal) (samples : List SampleIn) (settings : Settings),
        ((analyze temperatures samples settings).2).map (·.visible) =
          samples.map (·.visible)) := by
  refine ⟨?_, ?_, ?_⟩
  · intro pd i
    unfold toggleSampleVisibility
    by_cases h : i < pd.samples.length
    · rw [if_pos h]
      refine ⟨rfl, rfl, ?_, ?_⟩
      · exact mapIdx0_map_invariant _ _ _ (by intro k a; split <;> rfl)
      · intro j
        dsimp only
        rw [mapIdx0_get?, Option.map_map]
        congr 1
        funext s
        by_cases hji : j = i <;> simp [hji]
    · rw [if_neg h]
      refine ⟨rfl, rfl, rfl, ?_⟩
      intro j
      by_cases hji : j = i
      · subst hji
        rw [List.get?_eq_none.2 (Nat.le_of_not_lt h)]
        rfl
      · simp [hji]
  · intro pd v
    unfold setAllSamplesVisibility
    refine ⟨rfl, rfl, ?_, ?_⟩
    · rw [List.map_map]
      rfl
    · intro j
      rw [List.get?_map, Option.map_map]
      rfl
  · intro temperatures samples settings
    simp only [analyze]
    rw [differenceStage_map_visible, List.map_map]
    rfl

/-- Claim C1: after invalid-temperature rows are filtered, a column is
accepted as a sample if and only if the fraction of its non-missing values
over the filtered temperature vector strictly exceeds `0.5` (so exactly 50%
is dropped and anything above is retained); the drop is a soft filter
inside `extractedSamples`, not an error. -/
theorem extractSamples_coverage_gate (d : RawData) (header : String)
    (hmem : header ∈ d.headers) (hne : header ≠ d.tempHeader)
    (hnz : (temperaturesOf d).length ≠ 0) :
    header ∈ (extractedSamples d).map (·.name) ↔
      2 * validCountOf d header > (temperaturesOf d).length := by
  have hn : (0 : ℚ) < ((temperaturesOf d).length : ℚ) := by
    exact_mod_cast Nat.pos_of_ne_zero hnz
  have hcov : ∀ h' : String,
      ((1 : ℚ) / 2 <
          ((((columnOf d h').filter (·.isSome)).length : ℚ)) /
            ((temperaturesOf d).length : ℚ)) ↔
        2 * validCountOf d h' > (temperaturesOf d).length := by
    intro h'
    rw [div_lt_div_iff (by norm_num) hn, one_mul, gt_iff_lt, validCountOf]
    rw [show ((((columnOf d h').filter (·.isSome)).length : ℚ)) * 2 =
        (((2 * ((columnOf d h').filter (·.isSome)).length : ℕ)) : ℚ) by push_cast; ring]
    exact_mod_cast Iff.rfl
  constructor
  · intro h
    rcases List.mem_map.1 h with ⟨s, hs, hname⟩
    simp only [extractedSamples] at hs
    rcases List.mem_filterMap.1 hs with ⟨h', hh', hf⟩
    by_cases htmp : h' = d.tempHeader
    · rw [if_pos htmp] at hf
      exact absurd hf (by simp)
    · rw [if_neg htmp] at hf
      by_cases hc : (1 : ℚ) / 2 <
          ((((columnOf d h').filter (·.isSome)).length : ℚ)) /
            ((temperaturesOf d).length : ℚ)
      · rw [if_pos hc] at hf
        have hs_eq : s.name = h' := by
          cases hf
          rfl
        have : h' = header := by rw [← hs_eq, hname]
        subst this
        exact (hcov h').1 hc
      · rw [if_neg hc] at hf
        exact absurd hf (by simp)
  · intro h
    refine List.mem_map.2
      ⟨{ name := header, fluorescence := fillMissingValues (columnOf d header),
         visible := true }, ?_, rfl⟩
    simp only [extractedSamples]
    refine List.mem_filterMap.2 ⟨header, hmem, ?_⟩
    rw [if_neg hne, if_pos ((hcov header).2 h)]

/-- Witness for claim C1 on `rawEx`: column `B` with 75% coverage satisfies
the gate. -/
theorem extractSamples_coverage_gate_witness :
    "B" ∈ (extractedSamples rawEx).map (·.name) ↔
      2 * validCountOf rawEx "B" > (temperaturesOf rawEx).length :=
  extractSamples_coverage_gate rawEx "B" (by decide) (by decide) (by decide)

theorem jabs_isNaN (a : JVal) : (jabs a).isNaN = a.isNaN := by
  cases a <;> rfl

theorem jgt_irrefl (a : JVal) : jgt a a = false := by
  cases a <;> simp [jgt]

theorem jgt_trans {x y z : JVal} (h1 : jgt x y = true) (h2 : jgt y z = true) :
    jgt x z = true := by
  cases x <;> cases y <;> cases z <;> simp_all [jgt] <;> linarith

theorem jgt_le_trans {x y z : JVal} (hy : y.isNaN = false)
    (h1 : jgt x y = false) (h2 : jgt y z = false) : jgt x z = false := by
  cases x <;> cases y <;> cases z <;> simp_all [jgt, JVal.isNaN] <;> linarith

theorem jgt_lt_of_le_of_lt {x y z : JVal} (hx : x.isNaN = false)
    (h1 : jgt x y = false) (h2 : jgt z y = true) : jgt z x = true := by
  cases x <;> cases y <;> cases z <;> simp_all [jgt, JVal.isNaN] <;> linarith

theorem jgt_le_of_lt_of_le {x y z : JVal} (h1 : jgt y x = true)
    (h2 : jgt y z = false) : jgt x z = false := by
  cases x <;> cases y <;> cases z <;> simp_all [jgt] <;> linarith

theorem getJ_eq_get (l : List JVal) (k : Nat) (hk : k < l.length) :
    getJ l k = l.get ⟨k, hk⟩ := by
  rw [getJ, List.get?_eq_get hk]
  rfl

theorem scanMax_spec (l : List JVal) (cur : JVal) (i best : Nat)
    (hl : ∀ d ∈ l, d.isNaN = false) (hcur : cur.isNaN = false) (hbi : best < i) :
    (scanMax l cur i best).1.isNaN = false ∧
    (((scanMax l cur i best).1 = cur ∧ (scanMax l cur i best).2 = best) ∨
      ∃ k, k < l.length ∧
        (scanMax l cur i best).1 = getJ l k ∧
        (scanMax l cur i best).2 = i + k ∧
        jgt (jabs (getJ l k)) (jabs cur) = true) ∧
    (∀ k, k < l.length →
        jgt (jabs (getJ l k)) (jabs (scanMax l cur i best).1) = false) ∧
    (∀ k, k < l.length → i + k < (scanMax l cur i best).2 →
        jgt (jabs (scanMax l cur i best).1) (jabs (getJ l k)) = true) ∧
    jgt (jabs cur) (jabs (scanMax l cur i best).1) = false := by
  induction l generalizing cur i best with
  | nil =>
    refine ⟨hcur, Or.inl ⟨rfl, rfl⟩, ?_, ?_, jgt_irrefl _⟩
    · intro k hk
      exact absurd hk (Nat.not_lt_zero k)
    · intro k hk
      exact absurd hk (Nat.not_lt_zero k)
  | cons d ds ih =>
    have hd : d.isNaN = false := hl d (List.mem_cons_self d ds)
    have hds : ∀ x ∈ ds, x.isNaN = false := fun x hx =>
      hl x (List.mem_cons_of_mem d hx)
    by_cases hgt : jgt (jabs d) (jabs cur) = true
    · have heq : scanMax (d :: ds) cur i best = scanMax ds d (i + 1) i := by
        simp [scanMax, hgt]
      rw [heq]
      obtain ⟨ih1, ih2, ih3, ih4, ih5⟩ :=
        ih d (i + 1) i hds hd (Nat.lt_succ_self i)
      refine ⟨ih1, ?_, ?_, ?_, ?_⟩
      · rcases ih2 with ⟨hv, hb⟩ | ⟨k, hk, hv, hb, hlt⟩
        · right
          refine ⟨0, by simp, hv, by simpa using hb, hgt⟩
        · right
          refine ⟨k + 1, by simpa using Nat.succ_lt_succ hk, hv, ?_, ?_⟩
          · rw [hb]; omega
          · exact jgt_trans hlt hgt
      · intro k hk
        cases k with
        | zero => exact ih5
        | succ k => exact ih3 k (by simpa using Nat.lt_of_succ_lt_succ hk)
      · intro k hk hik
        cases k with
        | zero =>
          rcases ih2 with ⟨hv, hb⟩ | ⟨k', hk', hv, hb, hlt⟩
          · rw [hb] at hik
            omega
          · rw [hv]
            exact hlt
        | succ k =>
          have hik2 : i + 1 + k < (scanMax ds d (i + 1) i).2 := by omega
          exact ih4 k (by simpa using Nat.lt_of_succ_lt_succ hk) hik2
      · exact jgt_le_of_lt_of_le hgt ih5
    · have hfalse : jgt (jabs d) (jabs cur) = false := by
        simpa using hgt
      have heq : scanMax (d :: ds) cur i best = scanMax ds cur (i + 1) best := by
        simp [scanMax, hfalse]
      rw [heq]
      obtain ⟨ih1, ih2, ih3, ih4, ih5⟩ :=
        ih cur (i + 1) best hds hcur (by omega)
      refine ⟨ih1, ?_, ?_, ?_, ?_⟩
      · rcases ih2 with ⟨hv, hb⟩ | ⟨k, hk, hv, hb, hlt⟩
        · exact Or.inl ⟨hv, hb⟩
        · right
          refine ⟨k + 1, by simpa using Nat.succ_lt_succ hk, hv, ?_, hlt⟩
          rw [hb]; omega
      · intro k hk
        cases k with
        | zero => exact jgt_le_trans (by rw [jabs_isNaN]; exact hcur) hfalse ih5
        | succ k => exact ih3 k (by simpa using Nat.lt_of_succ_lt_succ hk)
      · intro k hk hik
        cases k with
        | zero =>
          rcases ih2 with ⟨hv, hb⟩ | ⟨k', hk', hv, hb, hlt⟩
          · rw [hb] at hik
            omega
          · rw [hv]
            exact jgt_lt_of_le_of_lt (by rw [jabs_isNaN]; exact hd) hfalse hlt
        | succ k =>
          have hik2 : i + 1 + k < (scanMax ds cur (i + 1) best).2 := by omega
          exact ih4 k (by simpa using Nat.lt_of_succ_lt_succ hk) hik2
      · exact ih5

/-- Claim C2: for every temperature vector and non-empty derivative vector of
the same length whose entries are not `NaN`, `findTm` returns the temperature
at the first index of maximal absolute derivative value: no entry's absolute
value strictly exceeds the chosen one's (under the source's own comparison
`jgt`), and the chosen one's absolute value strictly exceeds that of every
earlier entry, so ties are broken by first occurrence. -/
theorem findTm_first_max (temperatures derivative : List JVal)
    (hne : derivative ≠ [])
    (hlen : derivative.length = temperatures.length)
    (hfin : ∀ d ∈ derivative, d.isNaN = false) :
    ∃ j, j < derivative.length ∧
      findTm temperatures derivative = getJ temperatures j ∧
      (∀ k, k < derivative.length →
        jgt (jabs (getJ derivative k)) (jabs (getJ derivative j)) = false) ∧
      (∀ k, k < j →
        jgt (jabs (getJ derivative j)) (jabs (getJ derivative k)) = true) := by
  cases derivative with
  | nil => exact absurd rfl hne
  | cons d0 rest =>
    have hd0 : d0.isNaN = false := hfin d0 (List.mem_cons_self _ _)
    have hrest : ∀ x ∈ rest, x.isNaN = false := fun x hx =>
      hfin x (List.mem_cons_of_mem _ hx)
    obtain ⟨h1, h2, h3, h4, h5⟩ := scanMax_spec rest d0 1 0 hrest hd0 Nat.one_pos
    rcases h2 with ⟨hv, hb⟩ | ⟨k, hk, hv, hb, hlt⟩
    · refine ⟨0, by simp, ?_, ?_, ?_⟩
      · show getJ temperatures (scanMax rest d0 1 0).2 = getJ temperatures 0
        rw [hb]
      · intro k hkl
        cases k with
        | zero => exact jgt_irrefl _
        | succ k =>
          have := h3 k (by simpa using Nat.lt_of_succ_lt_succ hkl)
          rw [hv] at this
          exact this
      · intro k hk0
        exact absurd hk0 (Nat.not_lt_zero k)
    · have hvl : getJ (d0 :: rest) (k + 1) = (scanMax rest d0 1 0).1 := hv.symm
      refine ⟨k + 1, by simpa using Nat.succ_lt_succ hk, ?_, ?_, ?_⟩
      · show getJ temperatures (scanMax rest d0 1 0).2 = getJ temperatures (k + 1)
        rw [hb, Nat.add_comm]
      · intro m hml
        rw [hvl]
        cases m with
        | zero => exact h5
        | succ m => exact h3 m (by simpa using Nat.lt_of_succ_lt_succ hml)
      · intro m hmk
        rw [hvl]
        cases m with
        | zero =>
          rw [hv]
          exact hlt
        | succ m =>
          have hmrest : m < rest.length := by omega
          have hidx : 1 + m < (scanMax rest d0 1 0).2 := by omega
          exact h4 m hmrest hidx

/-- Witness for claim C2: the derivative `[1, 5, -5]` has its absolute
maximum first at index 1, so the reported Tm is the temperature there. -/
theorem findTm_first_max_witness :
    ∃ j, j < ([JVal.fin 1, JVal.fin 5, JVal.fin (-5)] : List JVal).length ∧
      findTm [JVal.fin 70, JVal.fin 71, JVal.fin 72]
          [JVal.fin 1, JVal.fin 5, JVal.fin (-5)] =
        getJ [JVal.fin 70, JVal.fin 71, JVal.fin 72] j ∧
      (∀ k, k < ([JVal.fin 1, JVal.fin 5, JVal.fin (-5)] : List JVal).length →
        jgt (jabs (getJ [JVal.fin 1, JVal.fin 5, JVal.fin (-5)] k))
          (jabs (getJ [JVal.fin 1, JVal.fin 5, JVal.fin (-5)] j)) = false) ∧
      (∀ k, k < j →
        jgt (jabs (getJ [JVal.fin 1, JVal.fin 5, JVal.fin (-5)] j))
          (jabs (getJ [JVal.fin 1, JVal.fin 5, JVal.fin (-5)] k)) = true) :=
  findTm_first_max [JVal.fin 70, JVal.fin 71, JVal.fin 72]
    [JVal.fin 1, JVal.fin 5, JVal.fin (-5)] (by decide) (by decide) (by decide)

theorem getJ_mapIdx0 (f : Nat → JVal → JVal) (l : List JVal) (p : Nat)
    (hp : p < l.length) : getJ (mapIdx0 f l) p = f p (getJ l p) := by
  rw [getJ, getJ, mapIdx0_get?, List.get?_eq_get hp]
  rfl

theorem differenceStage_normalized (l : List AnalyzedSample) (ref : Option Int)
    (j : Nat) : sampleNormAt (differenceStage l ref) j = sampleNormAt l j := by
  cases ref with
  | none => rfl
  | some r =>
    simp only [differenceStage]
    split
    · rw [sampleNormAt, sampleNormAt, mapIdx0_get?]
      cases hg : l.get? j with
      | none => rfl
      | some s =>
        simp only [Option.map_some']
        split <;> rfl
    · rfl

theorem differenceStage_refCase (l : List AnalyzedSample) (r : Int)
    (h0 : 0 ≤ r) (hr : r.toNat < l.length) :
    ((differenceStage l (some r)).get? r.toNat).map (·.difference) =
      some (some (List.replicate (sampleNormAt l r.toNat).length (JVal.fin 0))) ∧
    ∀ i, i < l.length → i ≠ r.toNat →
      ((differenceStage l (some r)).get? i).map (·.difference) =
        some (some (mapIdx0
          (fun p v => jsub v (getJ (sampleNormAt l r.toNat) p))
          (sampleNormAt l i))) := by
  have hcast : r < (l.length : Int) := by omega
  have hsn : sampleNormAt l r.toNat = (l.get ⟨r.toNat, hr⟩).normalized := by
    rw [sampleNormAt, List.get?_eq_get hr]
    rfl
  simp only [differenceStage]
  rw [if_pos ⟨h0, hcast⟩]
  constructor
  · rw [mapIdx0_get?, List.get?_eq_get hr, Option.map_some', Option.map_some',
      if_pos rfl, hsn]
    rfl
  · intro i hi hne
    have hni : sampleNormAt l i = (l.get ⟨i, hi⟩).normalized := by
      rw [sampleNormAt, List.get?_eq_get hi]
      rfl
    rw [mapIdx0_get?, List.get?_eq_get hi, Option.map_some', Option.map_some',
      if_neg hne, hni]
    rfl

theorem differenceStage_passthrough (l : List AnalyzedSample)
    (ref : Option Int)
    (h : ref = none ∨ ∀ r : Int, ref = some r → r < 0 ∨ (l.length : Int) ≤ r) :
    differenceStage l ref = l := by
  cases ref with
  | none => rfl
  | some r =>
    simp only [differenceStage]
    rcases h with h | h
    · cases h
    · rw [if_neg]
      rcases h r rfl with h | h
      · intro hc
        omega
      · intro hc
        omega

theorem normalizeArray_length (arr : List JVal) (a b c d : Nat) :
    (normalizeArray arr a b c d).length = arr.length := by
  simp [normalizeArray]

theorem differenceStage_spec_general (temperatures : List JVal)
    (L : List AnalyzedSample) (ref : Option Int)
    (hnl : ∀ j, j < L.length → (sampleNormAt L j).length = temperatures.length) :
    (∀ r : Int, ref = some r → 0 ≤ r → r.toNat < L.length →
      ((differenceStage L ref).get? r.toNat).map (·.difference) =
        some (some (List.replicate temperatures.length (JVal.fin 0))) ∧
      (∀ i, i < L.length → i ≠ r.toNat →
        ∃ diff : List JVal,
          ((differenceStage L ref).get? i).map (·.difference) = some (some diff) ∧
          diff.length = temperatures.length ∧
          ∀ p, p < temperatures.length →
            getJ diff p =
              jsub (getJ (sampleNormAt (differenceStage L ref) i) p)
                (getJ (sampleNormAt (differenceStage L ref) r.toNat) p))) ∧
    ((ref = none ∨ ∀ r : Int, ref = some r → r < 0 ∨ (L.length : Int) ≤ r) →
      differenceStage L ref = L) := by
  constructor
  · intro r href h0 hr
    subst href
    obtain ⟨c1, c2⟩ := differenceStage_refCase L r h0 hr
    constructor
    · rw [c1, hnl r.toNat hr]
    · intro i hi hne
      refine ⟨_, c2 i hi hne, ?_, ?_⟩
      · rw [mapIdx0_length, hnl i hi]
      · intro p hp
        rw [differenceStage_normalized, differenceStage_normalized]
        have hp2 : p < (sampleNormAt L i).length := by
          rw [hnl i hi]
          exact hp
        rw [getJ_mapIdx0 _ _ _ hp2]
  · exact differenceStage_passthrough L ref

/-- Claim C6: with the per-sample length invariant from extraction, a valid
reference index `r` makes the difference stage set sample `r`'s difference
to the all-zero vector of the temperature axis's length and every other
sample's difference to the pointwise subtraction of the reference's
normalized curve from its own; an absent or out-of-range reference leaves
every sample's difference unset. -/
theorem difference_stage_spec (temperatures : List JVal) (samples : List SampleIn)
    (settings : Settings)
    (hlen : ∀ s ∈ samples, s.fluorescence.length = temperatures.length) :
    (∀ r : Int, settings.referenceSample = some r → 0 ≤ r →
      r.toNat < samples.length →
      (((analyze temperatures samples settings).2.get? r.toNat).map (·.difference)) =
        some (some (List.replicate temperatures.length (JVal.fin 0))) ∧
      (∀ i, i < samples.length → i ≠ r.toNat →
        ∃ diff : List JVal,
          (((analyze temperatures samples settings).2.get? i).map (·.difference)) =
            some (some diff) ∧
          diff.length = temperatures.length ∧
          ∀ p, p < temperatures.length →
            getJ diff p =
              jsub
                (getJ (sampleNormAt (analyze temperatures samples settings).2 i) p)
                (getJ (sampleNormAt (analyze temperatures samples settings).2 r.toNat) p))) ∧
    ((settings.referenceSample = none ∨
        ∀ r : Int, settings.referenceSample = some r →
          r < 0 ∨ (samples.length : Int) ≤ r) →
      ∀ i : Nat,
        (((analyze temperatures samples settings).2.get? i).map (·.difference)) =
          (samples.get? i).map (fun _ => (none : Option (List JVal)))) := by
  simp only [analyze]
  set regions := detectMeltRegions temperatures
    ((samples.head?.map (·.fluorescence)).getD []) with hreg
  set L := samples.map (derivativeStage temperatures settings regions) with hLdef
  have hLlen : L.length = samples.length := by
    rw [hLdef, List.length_map]
  have hnl : ∀ j, j < L.length → (sampleNormAt L j).length = temperatures.length := by
    intro j hj
    have hjs : j < samples.length := by rw [← hLlen]; exact hj
    rw [hLdef, sampleNormAt, List.get?_map, List.get?_eq_get hjs]
    dsimp only [Option.map_some', Option.getD_some]
    show (normalizeArray (samples.get ⟨j, hjs⟩).fluorescence regions.preStart
      regions.preEnd regions.postStart regions.postEnd).length = temperatures.length
    rw [normalizeArray_length]
    exact hlen _ (List.get_mem samples j hjs)
  have hdiffnone : ∀ i, (L.get? i).map (·.difference) =
      (samples.get? i).map (fun _ => (none : Option (List JVal))) := by
    intro i
    rw [hLdef, List.get?_map, Option.map_map]
    rfl
  obtain ⟨part1, part2⟩ :=
    differenceStage_spec_general temperatures L settings.referenceSample hnl
  constructor
  · intro r href h0 hr
    have hr2 : r.toNat < L.length := by rw [hLlen]; exact hr
    obtain ⟨c1, c2⟩ := part1 r href h0 hr2
    refine ⟨c1, ?_⟩
    intro i hi hne
    exact c2 i (by rw [hLlen]; exact hi) hne
  · intro h i
    have h2 : settings.referenceSample = none ∨
        ∀ r : Int, settings.referenceSample = some r →
          r < 0 ∨ (L.length : Int) ≤ r := by
      rcases h with h | h
      · exact Or.inl h
      · refine Or.inr fun r hrr => ?_
        rcases h r hrr with h3 | h3
        · exact Or.inl h3
        · right
          rw [hLlen]
          exact h3
    rw [part2 h2]
    exact hdiffnone i

/-- Witness for claim C6: a two-sample analysis with reference index 0. -/
theorem difference_stage_spec_witness :
    (∀ r : Int, settingsC6.referenceSample = some r → 0 ≤ r →
      r.toNat < samplesC6.length →
      (((analyze tempsC6 samplesC6 settingsC6).2.get? r.toNat).map (·.difference)) =
        some (some (List.replicate tempsC6.length (JVal.fin 0))) ∧
      (∀ i, i < samplesC6.length → i ≠ r.toNat →
        ∃ diff : List JVal,
          (((analyze tempsC6 samplesC6 settingsC6).2.get? i).map (·.difference)) =
            some (some diff) ∧
          diff.length = tempsC6.length ∧
          ∀ p, p < tempsC6.length →
            getJ diff p =
              jsub (getJ (sampleNormAt (analyze tempsC6 samplesC6 settingsC6).2 i) p)
                (getJ (sampleNormAt (analyze tempsC6 samplesC6 settingsC6).2 r.toNat) p))) ∧
    ((settingsC6.referenceSample = none ∨
        ∀ r : Int, settingsC6.referenceSample = some r →
          r < 0 ∨ (samplesC6.length : Int) ≤ r) →
      ∀ i : Nat,
        (((analyze tempsC6 samplesC6 settingsC6).2.get? i).map (·.difference)) =
          (samplesC6.get? i).map (fun _ => (none : Option (List JVal)))) :=
  difference_stage_spec tempsC6 samplesC6 settingsC6 (by decide)

/-- Claim C5 counterexample: on parsed names `A_3`, `A`, `A` the one-pass
disambiguation of `formatForHRMAnalyzer` renames the third sample to `A_3`,
which collides with the first sample's untouched name, so the produced
header names are not pairwise distinct. -/
theorem header_names_not_distinct :
    (formatForHRMAnalyzer parsedDupEx).map (·.headers) =
      some ["Temperature", "A_3", "A", "A_3"] ∧
    ¬ (["Temperature", "A_3", "A", "A_3"] : List String).Nodup := by
  constructor
  · rfl
  · decide

theorem headerNamesAux_length (ss : List ParsedSample) (idx : Nat)
    (used : List String) : (headerNamesAux ss idx used).length = ss.length := by
  induction ss generalizing idx used with
  | nil => rfl
  | cons s ss ih => simp [headerNamesAux, ih]

theorem headerNamesAux_get (ss : List ParsedSample) (idx : Nat)
    (used : List String) (k : Nat) (hk : k < ss.length) :
    (headerNamesAux ss idx used).get? k =
      some (if baseName (ss.get ⟨k, hk⟩) ∈ used ∨
          baseName (ss.get ⟨k, hk⟩) ∈ (headerNamesAux ss idx used).take k then
        baseName (ss.get ⟨k, hk⟩) ++ "_" ++ toString (idx + k + 1)
      else baseName (ss.get ⟨k, hk⟩)) := by
  induction ss generalizing idx used k with
  | nil => exact absurd hk (Nat.not_lt_zero k)
  | cons s ss ih =>
    cases k with
    | zero => simp [headerNamesAux]
    | succ k =>
      have hk2 : k < ss.length := Nat.lt_of_succ_lt_succ hk
      simp only [headerNamesAux, List.get?_cons_succ, List.get_cons_succ,
        List.take_succ_cons]
      rw [ih (idx + 1)
        ((if baseName s ∈ used then baseName s ++ "_" ++ toString (idx + 1)
          else baseName s) :: used) k hk2]
      have harith : idx + 1 + k + 1 = idx + (k + 1) + 1 := by omega
      rw [harith]
      have hcond : (baseName (ss.get ⟨k, hk2⟩) ∈
            ((if baseName s ∈ used then baseName s ++ "_" ++ toString (idx + 1)
              else baseName s) :: used) ∨
          baseName (ss.get ⟨k, hk2⟩) ∈
            (headerNamesAux ss (idx + 1)
              ((if baseName s ∈ used then baseName s ++ "_" ++ toString (idx + 1)
                else baseName s) :: used)).take k) ↔
          (baseName (ss.get ⟨k, hk2⟩) ∈ used ∨
            baseName (ss.get ⟨k, hk2⟩) ∈
              ((if baseName s ∈ used then baseName s ++ "_" ++ toString (idx + 1)
                else baseName s) ::
                (headerNamesAux ss (idx + 1)
                  ((if baseName s ∈ used then baseName s ++ "_" ++ toString (idx + 1)
                    else baseName s) :: used)).take k)) := by
        simp only [List.mem_cons]
        tauto
      rw [if_congr hcond rfl rfl]

/-- Claim C5, amended: in `formatForHRMAnalyzer` the headers are
`Temperature` followed by one name per sample; an empty parsed name becomes
`Well_<wellNumber + 1>`, and a base name equal to one of the already
assigned names is suffixed with the sample's 1-based position — but the
resulting names are not guaranteed pairwise distinct, because a suffixed
name can itself coincide with another assigned name. -/
theorem header_disambiguation_rule (samples : List ParsedSample) (k : Nat)
    (hk : k < samples.length) :
    (∀ fd, formatForHRMAnalyzer samples = some fd →
      fd.headers = "Temperature" :: headerNames samples) ∧
    (∀ s : ParsedSample, s.sampleName = "" →
      baseName s = "Well_" ++ toString (s.wellNumber + 1)) ∧
    (headerNames samples).get? k =
      some (if baseName (samples.get ⟨k, hk⟩) ∈ (headerNames samples).take k then
        baseName (samples.get ⟨k, hk⟩) ++ "_" ++ toString (k + 1)
      else baseName (samples.get ⟨k, hk⟩)) := by
  refine ⟨?_, ?_, ?_⟩
  · intro fd hfd
    cases samples with
    | nil => cases hfd
    | cons s0 rest =>
      simp only [formatForHRMAnalyzer] at hfd
      cases hfd
      rfl
  · intro s hs
    rw [baseName, if_pos hs]
  · rw [headerNames, headerNamesAux_get samples 0 [] k hk]
    simp [headerNames]

/-- Witness for the amended claim C5 at the third sample of `parsedDupEx`,
whose base name `A` is already assigned and is therefore suffixed. -/
theorem header_disambiguation_rule_witness :
    (∀ fd, formatForHRMAnalyzer parsedDupEx = some fd →
      fd.headers = "Temperature" :: headerNames parsedDupEx) ∧
    (∀ s : ParsedSample, s.sampleName = "" →
      baseName s = "Well_" ++ toString (s.wellNumber + 1)) ∧
    (headerNames parsedDupEx).get? 2 =
      some (if baseName (parsedDupEx.get ⟨2, by decide⟩) ∈
          (headerNames parsedDupEx).take 2 then
        baseName (parsedDupEx.get ⟨2, by decide⟩) ++ "_" ++ toString (2 + 1)
      else baseName (parsedDupEx.get ⟨2, by decide⟩)) :=
  header_disambiguation_rule parsedDupEx 2 (by decide)

theorem mapIdxJ_map_comp {α β γ : Type} (f : Nat → α → β) (h : β → γ)
    (l : List α) (i : Nat) :
    (mapIdxJ f l i).map h = mapIdxJ (fun j a => h (f j a)) l i := by
  induction l generalizing i with
  | nil => rfl
  | cons a as ih => simp [mapIdxJ, ih]

theorem getStr_eq_get (l : List String) (k : Nat) (hk : k < l.length) :
    getStr l k = l.get ⟨k, hk⟩ := by
  rw [getStr, List.get?_eq_get hk]
  rfl

theorem objSet_notMem (row : List (String × Option JVal)) (key : String)
    (v : Option JVal) (h : ∀ p ∈ row, p.1 ≠ key) :
    objSet row key v = row ++ [(key, v)] := by
  have hc : ¬ (row.any (fun p => p.1 = key) = true) := by
    rw [List.any_eq_true]
    rintro ⟨p, hp, hpk⟩
    exact h p hp (by simpa using hpk)
  rw [objSet, if_neg hc]

theorem headerNames_length (samples : List ParsedSample) :
    (headerNames samples).length = samples.length := by
  rw [headerNames, headerNamesAux_length]

theorem lookup_keyAt (l : List (String × Option JVal)) (k : Nat)
    (hk : k < l.length) (hnd : (l.map (·.1)).Nodup) :
    l.lookup (l.get ⟨k, hk⟩).1 = some (l.get ⟨k, hk⟩).2 := by
  induction l generalizing k with
  | nil => exact absurd hk (Nat.not_lt_zero k)
  | cons p ps ih =>
    have hnd2 : (p.1 :: ps.map (·.1)).Nodup := by simpa using hnd
    rcases List.nodup_cons.1 hnd2 with ⟨hhead, htail⟩
    cases k with
    | zero =>
      show List.lookup p.1 (p :: ps) = some p.2
      cases p with
      | mk a b => simp [List.lookup]
    | succ k =>
      have hk2 : k < ps.length := Nat.lt_of_succ_lt_succ hk
      have hget : ((p :: ps).get ⟨k + 1, hk⟩) = ps.get ⟨k, hk2⟩ := rfl
      have hne : ((p :: ps).get ⟨k + 1, hk⟩).1 ≠ p.1 := by
        intro hcontra
        apply hhead
        rw [← hcontra, hget]
        exact List.mem_map_of_mem (·.1) (List.get_mem ps k hk2)
      cases p with
      | mk a b =>
        have hbeq : ((((a, b) :: ps).get ⟨k + 1, hk⟩).1 == a) = false := by
          rw [beq_eq_false_iff_ne]
          exact hne
        rw [List.lookup, hbeq]
        exact ih k hk2 htail

theorem buildRowAux_spec (headers : List String) (i : Nat)
    (ss : List ParsedSample) (idx : Nat) (row : List (String × Option JVal))
    (hfresh : ∀ j, idx + 1 ≤ j → j < idx + 1 + ss.length →
      ∀ p ∈ row, p.1 ≠ getStr headers j)
    (hdist : ∀ j1 j2, idx + 1 ≤ j1 → j1 < idx + 1 + ss.length →
      idx + 1 ≤ j2 → j2 < idx + 1 + ss.length → j1 ≠ j2 →
      getStr headers j1 ≠ getStr headers j2) :
    buildRowAux headers i ss idx row =
      row ++ mapIdxJ (fun j s => (getStr headers (j + 1), s.rnValues.get? i)) ss idx := by
  induction ss generalizing idx row with
  | nil => simp [buildRowAux, mapIdxJ]
  | cons s ss2 ih =>
    have hlen : (s :: ss2).length = ss2.length + 1 := rfl
    have hkey : ∀ p ∈ row, p.1 ≠ getStr headers (idx + 1) := by
      intro p hp
      exact hfresh (idx + 1) (Nat.le_refl _) (by rw [hlen]; omega) p hp
    rw [buildRowAux, objSet_notMem row (getStr headers (idx + 1))
      (s.rnValues.get? i) hkey]
    rw [ih (idx + 1) (row ++ [(getStr headers (idx + 1), s.rnValues.get? i)])
      ?_ ?_]
    · rw [List.append_assoc]
      rfl
    · intro j hj1 hj2 p hp
      rcases List.mem_append.1 hp with hp | hp
      · exact hfresh j (by omega) (by rw [hlen]; omega) p hp
      · have hp2 : p = (getStr headers (idx + 1), s.rnValues.get? i) := by
          simpa using hp
        subst hp2
        exact hdist (idx + 1) j (Nat.le_refl _) (by rw [hlen]; omega)
          (by omega) (by rw [hlen]; omega) (by omega)
    · intro j1 j2 hj1a hj1b hj2a hj2b hne
      exact hdist j1 j2 (by omega) (by rw [hlen]; omega) (by omega)
        (by rw [hlen]; omega) hne

theorem headers_get_ne (samples : List ParsedSample)
    (hnd : ("Temperature" :: headerNames samples).Nodup)
    (j1 j2 : Nat) (h1 : j1 < ("Temperature" :: headerNames samples).length)
    (h2 : j2 < ("Temperature" :: headerNames samples).length) (hne : j1 ≠ j2) :
    getStr ("Temperature" :: headerNames samples) j1 ≠
      getStr ("Temperature" :: headerNames samples) j2 := by
  rw [getStr_eq_get _ j1 h1, getStr_eq_get _ j2 h2]
  intro hcontra
  have hfin := (List.Nodup.get_inj_iff hnd).1 hcontra
  exact hne (by simpa using congrArg Fin.val hfin)

theorem buildRow_spec (samples : List ParsedSample) (t : JVal) (i : Nat)
    (hnd : ("Temperature" :: headerNames samples).Nodup) :
    buildRow ("Temperature" :: headerNames samples) samples t i =
      ("Temperature", some t) ::
        mapIdxJ (fun j s =>
          (getStr ("Temperature" :: headerNames samples) (j + 1),
            s.rnValues.get? i)) samples 0 := by
  have hlen : ("Temperature" :: headerNames samples).length = samples.length + 1 := by
    simp [headerNames_length]
  rw [buildRow, buildRowAux_spec _ _ _ _ _ ?_ ?_]
  · rfl
  · intro j hj1 hj2 p hp
    have hp2 : p = ("Temperature", some t) := by simpa using hp
    subst hp2
    have h0 : (0 : Nat) < ("Temperature" :: headerNames samples).length := by
      simp
    have hj : j < ("Temperature" :: headerNames samples).length := by omega
    have := headers_get_ne samples hnd 0 j h0 hj (by omega)
    rw [getStr_eq_get _ 0 h0] at this
    exact fun hc => this (by rw [← hc]; rfl)
  · intro j1 j2 hj1a hj1b hj2a hj2b hne
    exact headers_get_ne samples hnd j1 j2 (by omega) (by omega) hne

theorem buildRow_keys (samples : List ParsedSample) (t : JVal) (i : Nat)
    (hnd : ("Temperature" :: headerNames samples).Nodup) :
    (buildRow ("Temperature" :: headerNames samples) samples t i).map (·.1) =
      "Temperature" :: headerNames samples := by
  rw [buildRow_spec samples t i hnd]
  rw [List.map_cons, mapIdxJ_map_comp]
  congr 1
  apply List.ext
  intro n
  rw [mapIdxJ_get?]
  by_cases hn : n < samples.length
  · have hhn : n < (headerNames samples).length := by
      rw [headerNames_length]
      exact hn
    rw [List.get?_eq_get hn, List.get?_eq_get hhn]
    dsimp only [Option.map_some']
    congr 1
    have hz : (0 : Nat) + n + 1 = n + 1 := by omega
    rw [hz]
    rw [show getStr ("Temperature" :: headerNames samples) (n + 1) =
      getStr (headerNames samples) n from rfl]
    exact getStr_eq_get _ n hhn
  · rw [List.get?_eq_none.2 (by omega),
      List.get?_eq_none.2 (by rw [headerNames_length]; omega)]
    rfl

/-- Claim C10 counterexample: in `parsedShortEx` the disambiguated names
collide (`A_3` twice), so JavaScript property assignment overwrites the
first sample's cells — row 1, where the first sample's short Rn vector
should give the missing marker, instead holds the third sample's value `7`,
and the row has three cells against four headers. -/
theorem formatted_rows_overwrite :
    ∃ fd, formatForHRMAnalyzer parsedShortEx = some fd ∧
      fd.headers = ["Temperature", "A_3", "A", "A_3"] ∧
      (fd.data.get? 1).map (fun row => row.lookup "A_3") =
        some (some (some (JVal.fin 7))) ∧
      (fd.data.get? 1).map (·.length) = some 3 ∧
      fd.headers.length = 4 := by
  refine ⟨_, rfl, ?_, ?_, ?_, ?_⟩ <;> decide

/-- Claim C10, amended: when the disambiguated header names are pairwise
distinct, the output table has one row per canonical temperature point, each
row's keys are exactly the headers in order (one cell per header, Rn values
beyond the canonical axis silently discarded), and the cell of sample `idx`
at row `i` is its Rn value at `i` when defined and the missing marker
(`null`) when the sample's Rn vector is shorter. -/
theorem formatted_rows_spec (s0 : ParsedSample) (rest : List ParsedSample)
    (fd : FormattedData) (hfd : formatForHRMAnalyzer (s0 :: rest) = some fd)
    (hnd : fd.headers.Nodup) :
    fd.data.length = s0.temperatures.length ∧
    (∀ row ∈ fd.data, row.map (·.1) = fd.headers) ∧
    (∀ i row, fd.data.get? i = some row →
      ∀ idx s, (s0 :: rest).get? idx = some s →
        row.lookup (getStr fd.headers (idx + 1)) = some (s.rnValues.get? i)) := by
  simp only [formatForHRMAnalyzer] at hfd
  injection hfd with hfd
  subst hfd
  dsimp only at hnd ⊢
  refine ⟨mapIdx0_length _ _, ?_, ?_⟩
  · intro row hrow
    obtain ⟨n, hn⟩ := List.mem_iff_get?.1 hrow
    rw [mapIdx0_get?] at hn
    cases ht : s0.temperatures.get? n with
    | none => rw [ht] at hn; cases hn
    | some t =>
      rw [ht] at hn
      dsimp only [Option.map_some'] at hn
      injection hn with hn
      rw [← hn]
      exact buildRow_keys (s0 :: rest) t n hnd
  · intro i row hrow idx s hidx
    rw [mapIdx0_get?] at hrow
    cases ht : s0.temperatures.get? i with
    | none => rw [ht] at hrow; cases hrow
    | some t =>
      rw [ht] at hrow
      dsimp only [Option.map_some'] at hrow
      injection hrow with hrow
      have hkeys : (row.map (·.1)).Nodup := by
        rw [← hrow, buildRow_keys (s0 :: rest) t i hnd]
        exact hnd
      have hrowget : row.get? (idx + 1) =
          some (getStr ("Temperature" :: headerNames (s0 :: rest)) (idx + 1),
            s.rnValues.get? i) := by
        rw [← hrow, buildRow_spec (s0 :: rest) t i hnd, List.get?_cons_succ,
          mapIdxJ_get?, hidx]
        dsimp only [Option.map_some']
        rw [show (0 : Nat) + idx = idx from by omega]
      obtain ⟨hb, hget⟩ := List.get?_eq_some.1 hrowget
      have := lookup_keyAt row (idx + 1) hb hkeys
      rw [hget] at this
      exact this

/-- Witness for the amended claim C10 on `pOk0 :: [pOk1]`: distinct names,
and the second sample's short Rn vector yields the missing marker. -/
theorem formatted_rows_spec_witness :
    fdOkEx.data.length = pOk0.temperatures.length ∧
    (∀ row ∈ fdOkEx.data, row.map (·.1) = fdOkEx.headers) ∧
    (∀ i row, fdOkEx.data.get? i = some row →
      ∀ idx s, (pOk0 :: [pOk1]).get? idx = some s →
        row.lookup (getStr fdOkEx.headers (idx + 1)) =
          some (s.rnValues.get? i)) :=
  formatted_rows_spec pOk0 [pOk1] fdOkEx (by rfl) (by decide)
